import Mathlib

/-!
Verification of the Snatchbase ingestion pipeline.

Shallow embedding of the Python sources under `backend/app/services/`:
text is modelled as `List Char` (called `Str` below), Python dicts as
association lists, and external I/O collaborators (the SQL store, the
archive-extraction subprocesses, the filesystem) as explicit oracle
parameters, following the collaborator interfaces of the spec (§6).
-/

namespace Snatchbase

/-- Text is a list of characters.  Python `str` operations are modelled
    as executable functions on `Str`. -/
abbrev Str := List Char

/-- Convert a Lean string literal to `Str`. -/
def str (s : String) : Str := s.data

/-- Characters stripped by Python's `str.strip()` (ASCII whitespace). -/
def isWSChar (c : Char) : Bool :=
  c == ' ' || c == '\t' || c == '\n' || c == '\r' || c == '\x0b' || c == '\x0c'

/-- Python `str.strip()`. -/
def trimStr (l : Str) : Str :=
  ((l.dropWhile isWSChar).reverse.dropWhile isWSChar).reverse

/-- Python `str.lower()` (ASCII). -/
def lowerStr (l : Str) : Str := l.map Char.toLower

/-- Python `pat in s` (contiguous substring test). -/
def isSubstr (pat l : Str) : Bool :=
  l.tails.any (fun t => pat.isPrefixOf t)

/-- Python `s.split(c)` for a single-character separator: always returns
    at least one (possibly empty) piece. -/
def splitOnChar (c : Char) : Str → List Str
  | [] => [[]]
  | x :: xs =>
    match splitOnChar c xs with
    | [] => [[]]
    | a :: as => if x = c then [] :: a :: as else (x :: a) :: as

/-- Python `sep.join(pieces)` for a single-character separator. -/
def joinSep (c : Char) : List Str → Str
  | [] => []
  | [x] => x
  | x :: xs => x ++ c :: joinSep c xs

/-- Digits-to-number, Python `int(...)` on an all-digit string. -/
def natOfDigits (l : Str) : Nat :=
  l.foldl (fun a c => a * 10 + (c.toNat - '0'.toNat)) 0

/-- Python `s.isdigit()` (ASCII digits; empty string is not a digit string). -/
def isDigitStr (l : Str) : Bool :=
  !l.isEmpty && l.all Char.isDigit

/-! ## Card brand detection

Embeds `detect_card_brand` from `backend/app/services/cc_integration.py`
(lines 18–68): clean the number, require all digits, then walk a fixed
sequence of prefix tests, first match wins. -/

/-- `card_number.replace(' ', '').replace('-', '')`. -/
def cleanNumber (card_number : Str) : Str :=
  card_number.filter (fun c => c != ' ' && c != '-')

/-- Visa: starts with `4`. -/
def visaTest (n : Str) : Bool := n.headD ' ' == '4'

/-- Mastercard: starts with `51`–`55`. -/
def mcPrefixTest (n : Str) : Bool :=
  [str "51", str "52", str "53", str "54", str "55"].contains (n.take 2)

/-- Mastercard: 4-digit prefix in `2221`–`2720`. -/
def mcRangeTest (n : Str) : Bool :=
  decide (4 ≤ n.length) && decide (2221 ≤ natOfDigits (n.take 4)) &&
    decide (natOfDigits (n.take 4) ≤ 2720)

/-- American Express: starts with `34` or `37`. -/
def amexTest (n : Str) : Bool := [str "34", str "37"].contains (n.take 2)

/-- Discover: starts with `6011`. -/
def disc6011Test (n : Str) : Bool := n.take 4 == str "6011"

/-- Discover: 6-digit prefix in `622126`–`622925`. -/
def disc622Test (n : Str) : Bool :=
  decide (6 ≤ n.length) && decide (622126 ≤ natOfDigits (n.take 6)) &&
    decide (natOfDigits (n.take 6) ≤ 622925)

/-- Discover: 3-digit prefix in `644`–`649`. -/
def disc644Test (n : Str) : Bool :=
  decide (3 ≤ n.length) && decide (644 ≤ natOfDigits (n.take 3)) &&
    decide (natOfDigits (n.take 3) ≤ 649)

/-- Discover: starts with `65`. -/
def disc65Test (n : Str) : Bool := n.take 2 == str "65"

/-- JCB: 4-digit prefix in `3528`–`3589`. -/
def jcbTest (n : Str) : Bool :=
  decide (4 ≤ n.length) && decide (3528 ≤ natOfDigits (n.take 4)) &&
    decide (natOfDigits (n.take 4) ≤ 3589)

/-- Diners Club: 3-digit prefix in `300`–`305`. -/
def diners300Test (n : Str) : Bool :=
  decide (3 ≤ n.length) && decide (300 ≤ natOfDigits (n.take 3)) &&
    decide (natOfDigits (n.take 3) ≤ 305)

/-- Diners Club: starts with `36` or `38`. -/
def diners36Test (n : Str) : Bool := [str "36", str "38"].contains (n.take 2)

/-- The `if`/`return` chain of `detect_card_brand`, after the number has
    been cleaned, in source order. -/
def detectBrandOf (n : Str) : String :=
  if !isDigitStr n then "Unknown"
  else if visaTest n then "Visa"
  else if mcPrefixTest n then "Mastercard"
  else if mcRangeTest n then "Mastercard"
  else if amexTest n then "American Express"
  else if disc6011Test n then "Discover"
  else if disc622Test n then "Discover"
  else if disc644Test n then "Discover"
  else if disc65Test n then "Discover"
  else if jcbTest n then "JCB"
  else if diners300Test n then "Diners Club"
  else if diners36Test n then "Diners Club"
  else "Unknown"

/-- `detect_card_brand` from `cc_integration.py`: clean the number,
    require all digits, then run the prefix test chain. -/
def detect_card_brand (card_number : Str) : String :=
  detectBrandOf (cleanNumber card_number)

/-- One row of the brand rule table: a prefix test and the brand it names. -/
structure BrandRule where
  test : Str → Bool
  brand : String

/-- First matching rule wins; no match yields `Unknown`. -/
def firstMatchBrand : List BrandRule → Str → String
  | [], _ => "Unknown"
  | r :: rs, n => if r.test n then r.brand else firstMatchBrand rs n

/-- The claim's fixed-precedence rule table, one row per brand, in the
    order Visa; Mastercard; Amex; Discover; JCB; Diners. -/
def brandRules : List BrandRule :=
  [ ⟨visaTest, "Visa"⟩,
    ⟨fun n => mcPrefixTest n || mcRangeTest n, "Mastercard"⟩,
    ⟨amexTest, "American Express"⟩,
    ⟨fun n => disc6011Test n || disc622Test n || disc644Test n || disc65Test n, "Discover"⟩,
    ⟨jcbTest, "JCB"⟩,
    ⟨fun n => diners300Test n || diners36Test n, "Diners Club"⟩ ]

/-- Brand detection as the spec words it: a rule table applied in fixed
    precedence order. -/
def detect_card_brand_spec (card_number : Str) : String :=
  if isDigitStr (cleanNumber card_number) then
    firstMatchBrand brandRules (cleanNumber card_number)
  else "Unknown"

theorem firstMatchBrand_pos {r : BrandRule} {rs : List BrandRule} {n : Str}
    (h : r.test n = true) : firstMatchBrand (r :: rs) n = r.brand := by
  simp [firstMatchBrand, h]

theorem firstMatchBrand_neg {r : BrandRule} {rs : List BrandRule} {n : Str}
    (h : r.test n = false) : firstMatchBrand (r :: rs) n = firstMatchBrand rs n := by
  simp [firstMatchBrand, h]

theorem detect_eq_spec_table (card : Str) :
    detect_card_brand card = detect_card_brand_spec card := by
  simp only [detect_card_brand]
  simp only [detect_card_brand_spec]
  simp only [detectBrandOf]
  simp only [brandRules]
  generalize cleanNumber card = n
  cases hd : isDigitStr n
  · simp [hd]
  · simp only [hd, Bool.not_true, Bool.false_eq_true, ite_false, ite_true]
    cases h1 : visaTest n
    case true => rw [firstMatchBrand_pos h1]; simp [h1]
    case false =>
    rw [firstMatchBrand_neg h1]
    simp only [h1, Bool.false_eq_true, ite_false]
    cases h2 : mcPrefixTest n
    case true => rw [firstMatchBrand_pos (by simp [h2])]; simp [h2]
    case false =>
    simp only [h2, Bool.false_eq_true, ite_false]
    cases h3 : mcRangeTest n
    case true => rw [firstMatchBrand_pos (by simp [h2, h3])]; simp [h3]
    case false =>
    rw [firstMatchBrand_neg (by simp [h2, h3])]
    simp only [h3, Bool.false_eq_true, ite_false]
    cases h4 : amexTest n
    case true => rw [firstMatchBrand_pos h4]; simp [h4]
    case false =>
    rw [firstMatchBrand_neg h4]
    simp only [h4, Bool.false_eq_true, ite_false]
    cases h5 : disc6011Test n
    case true => rw [firstMatchBrand_pos (by simp [h5])]; simp [h5]
    case false =>
    simp only [h5, Bool.false_eq_true, ite_false]
    cases h6 : disc622Test n
    case true => rw [firstMatchBrand_pos (by simp [h5, h6])]; simp [h6]
    case false =>
    simp only [h6, Bool.false_eq_true, ite_false]
    cases h7 : disc644Test n
    case true => rw [firstMatchBrand_pos (by simp [h5, h6, h7])]; simp [h7]
    case false =>
    simp only [h7, Bool.false_eq_true, ite_false]
    cases h8 : disc65Test n
    case true => rw [firstMatchBrand_pos (by simp [h5, h6, h7, h8])]; simp [h8]
    case false =>
    rw [firstMatchBrand_neg (by simp [h5, h6, h7, h8])]
    simp only [h8, Bool.false_eq_true, ite_false]
    cases h9 : jcbTest n
    case true => rw [firstMatchBrand_pos h9]; simp [h9]
    case false =>
    rw [firstMatchBrand_neg h9]
    simp only [h9, Bool.false_eq_true, ite_false]
    cases h10 : diners300Test n
    case true => rw [firstMatchBrand_pos (by simp [h10])]; simp [h10]
    case false =>
    simp only [h10, Bool.false_eq_true, ite_false]
    cases h11 : diners36Test n
    case true => rw [firstMatchBrand_pos (by simp [h10, h11])]; simp [h11]
    case false =>
    rw [firstMatchBrand_neg (by simp [h10, h11])]
    simp [h11, firstMatchBrand]

/-! ## Password file parser

Embeds `PasswordFileParser` from `backend/app/services/password_parser.py`:
`parse_password_file` (lines 65–154) with its two passes over the lines,
`_extract_value`, `_is_valid_credential`, `_is_ip_address` and
`_extract_url_info`.  Leading underscores of the Python helper names are
dropped in the Lean names. -/

/-- A parsed credential (the `Credential` dataclass). -/
structure Credential where
  url : Str
  domain : Option Str
  tld : Option Str
  username : Str
  password : Str
  browser : Option Str
deriving DecidableEq

/-- The `PasswordFileStats` dataclass. -/
structure PasswordFileStats where
  credential_count : Nat
  domain_count : Nat
  url_count : Nat
  password_counts : List (Str × Nat)
  credentials : List Credential
deriving DecidableEq

/-- `_extract_value`: text after the first colon, stripped; the whole
    stripped line when there is no colon. -/
def extractValue (l : Str) : Str :=
  if l.contains ':' then trimStr ((l.dropWhile (fun c => c != ':')).drop 1)
  else trimStr l

/-- `re.sub(r"^https?://", "", s)`. -/
def stripScheme (l : Str) : Str :=
  if (str "https://").isPrefixOf l then l.drop 8
  else if (str "http://").isPrefixOf l then l.drop 7
  else l

/-- `re.sub(r"^www\.", "", s)`. -/
def stripWww (l : Str) : Str :=
  if (str "www.").isPrefixOf l then l.drop 4 else l

/-- `_is_ip_address`: strip scheme, cut at the first `/` and `:`, and
    match four dot-separated runs of 1–3 ASCII digits. -/
def isIpAddress (url : Str) : Bool :=
  let hostname := ((stripScheme (trimStr url)).takeWhile (fun c => c != '/')).takeWhile
    (fun c => c != ':')
  let parts := splitOnChar '.' hostname
  decide (parts.length = 4) &&
    parts.all (fun p => decide (1 ≤ p.length) && decide (p.length ≤ 3) && p.all Char.isDigit)

/-- The host part used by `_extract_url_info`: strip scheme and leading
    `www.` from the stripped URL, cut at the first `/` and `:`, lower-case. -/
def hostOf (url : Str) : Str :=
  lowerStr (((stripWww (stripScheme (trimStr url))).takeWhile (fun c => c != '/')).takeWhile
    (fun c => c != ':'))

/-- The host's dot-separated labels. -/
def hostLabels (url : Str) : List Str := splitOnChar '.' (hostOf url)

/-- Domain/TLD pair returned by `_extract_url_info`. -/
structure UrlInfo where
  domain : Option Str
  tld : Option Str
deriving DecidableEq

/-- `_extract_url_info` from `password_parser.py` (lines 185–210). -/
def extract_url_info (url : Str) : UrlInfo :=
  if (trimStr url).isEmpty then ⟨none, none⟩
  else if isIpAddress url then ⟨some (hostOf url), none⟩
  else if 2 ≤ (hostLabels url).length then
    ⟨some (if 2 < (hostLabels url).length then
        joinSep '.' ((hostLabels url).drop ((hostLabels url).length - 2))
      else hostOf url),
      some ((hostLabels url).getLastD [])⟩
  else ⟨some (hostOf url), none⟩

/-- The in-progress credential block (`current_credential` dict). -/
structure CurCred where
  url : Option Str
  username : Option Str
  password : Option Str
  browser : Option Str
deriving DecidableEq

/-- The empty block. -/
def emptyCur : CurCred := ⟨none, none, none, none⟩

/-- Python truthiness of an optional string: present and non-empty. -/
def truthy : Option Str → Bool
  | none => false
  | some s => !s.isEmpty

/-- `_is_valid_credential`: url, username and password all present and
    non-empty. -/
def is_valid_credential (c : CurCred) : Bool :=
  truthy c.url && truthy c.username && truthy c.password

/-- Assemble the `Credential` appended for a completed valid block. -/
def buildCred (c : CurCred) : Credential :=
  let u := c.url.getD []
  let info := extract_url_info u
  ⟨u, info.domain, info.tld, c.username.getD [], c.password.getD [], c.browser⟩

/-- Separator line: all characters equal and drawn from `=_-|`
    (`len(set(line)) == 1 and line[0] in "=_-|"`). -/
def isSeparatorLine (t : Str) : Bool :=
  match t with
  | [] => false
  | c :: rest => rest.all (fun x => x == c) && (c == '=' || c == '_' || c == '-' || c == '|')

/-- Field assignment of the second pass, on an already-stripped line. -/
def credFieldStep (cur : CurCred) (t : Str) : CurCred :=
  let lower := lowerStr t
  if isSubstr (str "url:") lower || isSubstr (str "host:") lower ||
      isSubstr (str "hostname:") lower then
    { cur with url := some (extractValue t) }
  else if isSubstr (str "username:") lower || isSubstr (str "user:") lower ||
      isSubstr (str "login:") lower then
    { cur with username := some (extractValue t) }
  else if isSubstr (str "password:") lower || isSubstr (str "pass:") lower then
    { cur with password := some (extractValue t) }
  else if isSubstr (str "browser:") lower || isSubstr (str "soft:") lower ||
      isSubstr (str "application:") lower then
    { cur with browser := some (extractValue t) }
  else cur

/-- One line of the second pass, on an already-stripped line: an empty or
    separator line ends the block (appending it when valid), any other
    line updates the block's fields. -/
def credLineCore (st : CurCred × List Credential) (t : Str) : CurCred × List Credential :=
  if t.isEmpty || isSeparatorLine t then
    (emptyCur, if is_valid_credential st.1 then st.2 ++ [buildCred st.1] else st.2)
  else (credFieldStep st.1 t, st.2)

/-- One raw line of the second pass: strip, then process. -/
def credLineStep (st : CurCred × List Credential) (line : Str) : CurCred × List Credential :=
  credLineCore st (trimStr line)

/-- The fold of the second pass over all lines. -/
def credFoldResult (lines : List Str) : CurCred × List Credential :=
  lines.foldl credLineStep (emptyCur, [])

/-- The second pass of `parse_password_file`: fold the lines, then flush
    the trailing block. -/
def parseCredentialBlocks (lines : List Str) : List Credential :=
  if is_valid_credential (credFoldResult lines).1 then
    (credFoldResult lines).2 ++ [buildCred (credFoldResult lines).1]
  else (credFoldResult lines).2

/-- Counters accumulated by the first pass of `parse_password_file`. -/
structure CountState where
  credential_count : Nat
  url_count : Nat
  domain_count : Nat
  password_counts : List (Str × Nat)
deriving DecidableEq

/-- `defaultdict(int)` increment preserving insertion order. -/
def bumpCount (m : List (Str × Nat)) (k : Str) : List (Str × Nat) :=
  if m.any (fun p => p.1 == k) then
    m.map (fun p => if p.1 == k then (p.1, p.2 + 1) else p)
  else m ++ [(k, 1)]

/-- One line of the first pass, on an already-stripped line. -/
def firstPassCore (st : CountState) (t : Str) : CountState :=
  if t.isEmpty then st
  else
    let lower := lowerStr t
    let st :=
      if isSubstr (str "password:") lower || isSubstr (str "pass:") lower then
        let password := extractValue t
        if !password.isEmpty then
          { st with credential_count := st.credential_count + 1,
                    password_counts := bumpCount st.password_counts password }
        else st
      else st
    if isSubstr (str "url:") lower || isSubstr (str "host:") lower ||
        isSubstr (str "hostname:") lower then
      let url := extractValue t
      if !url.isEmpty then
        { st with url_count := st.url_count + 1,
                  domain_count := if !isIpAddress url then st.domain_count + 1
                                  else st.domain_count }
      else st
    else st

/-- One raw line of the first pass: strip, then process. -/
def firstPassLine (st : CountState) (line : Str) : CountState :=
  firstPassCore st (trimStr line)

/-- The counters accumulated by the first pass over all lines. -/
def countsOf (content : Str) : CountState :=
  (splitOnChar '\n' content).foldl firstPassLine ⟨0, 0, 0, []⟩

/-- `parse_password_file` from `password_parser.py` (lines 65–154). -/
def parse_password_file (content : Str) : PasswordFileStats :=
  if (trimStr content).isEmpty then ⟨0, 0, 0, [], []⟩
  else
    ⟨(countsOf content).credential_count, (countsOf content).domain_count,
      (countsOf content).url_count, (countsOf content).password_counts,
      parseCredentialBlocks (splitOnChar '\n' content)⟩

/-! ### Lemmas about the text primitives -/

theorem splitOnChar_ne_nil (c : Char) (l : Str) : splitOnChar c l ≠ [] := by
  cases l with
  | nil => simp [splitOnChar]
  | cons x xs =>
    simp only [splitOnChar]
    cases h : splitOnChar c xs with
    | nil => simp
    | cons a as => by_cases hx : x = c <;> simp [hx]

theorem joinSep_splitOnChar (c : Char) (l : Str) :
    joinSep c (splitOnChar c l) = l := by
  induction l with
  | nil => rfl
  | cons x xs ih =>
    cases h : splitOnChar c xs with
    | nil => exact absurd h (splitOnChar_ne_nil c xs)
    | cons a as =>
      rw [h] at ih
      by_cases hx : x = c
      · subst hx
        simp only [splitOnChar, h, if_pos rfl, joinSep]
        cases as <;> simp_all [joinSep]
      · simp only [splitOnChar, h, if_neg hx]
        cases as <;> simp_all [joinSep]

theorem dropWhile_all_append {p : Char → Bool} (m t : Str) (h : ∀ c ∈ m, p c = true) :
    (m ++ t).dropWhile p = t.dropWhile p := by
  induction m with
  | nil => rfl
  | cons x xs ih =>
    simp only [List.cons_append, List.dropWhile_cons, h x (by simp)]
    exact ih (fun c hc => h c (by simp [hc]))

theorem dropWhile_nil_of_all {p : Char → Bool} (m : Str) (h : ∀ c ∈ m, p c = true) :
    m.dropWhile p = [] := by
  induction m with
  | nil => rfl
  | cons x xs ih =>
    simp only [List.dropWhile_cons, h x (by simp)]
    exact ih (fun c hc => h c (by simp [hc]))

theorem dropWhile_append_of_ne {p : Char → Bool} (l t : Str) (h : l.dropWhile p ≠ []) :
    (l ++ t).dropWhile p = l.dropWhile p ++ t := by
  induction l with
  | nil => simp at h
  | cons x xs ih =>
    by_cases hx : p x
    · simp only [List.cons_append, List.dropWhile_cons, hx, if_pos] at h ⊢
      exact ih h
    · simp [List.dropWhile_cons, hx]

theorem trimStr_append_ws (l ws : Str) (h : ∀ c ∈ ws, isWSChar c = true) :
    trimStr (l ++ ws) = trimStr l := by
  unfold trimStr
  by_cases h0 : l.dropWhile isWSChar = []
  · have hall : ∀ c ∈ l ++ ws, isWSChar c = true := by
      intro c hc
      rcases List.mem_append.mp hc with hcl | hcw
      · by_contra hfalse
        have := List.dropWhile_eq_nil_iff.mp h0
        simp_all
      · exact h c hcw
    rw [h0, dropWhile_nil_of_all _ hall]
  · rw [dropWhile_append_of_ne l ws h0, List.reverse_append,
      dropWhile_all_append _ _ (fun c hc => h c (List.mem_reverse.mp hc))]

/-! ### Lemmas for the credential parser -/

theorem foldl_credLineStep_congr (l₁ : List Str) :
    ∀ (l₂ : List Str) (st : CurCred × List Credential),
      l₁.map trimStr = l₂.map trimStr →
      l₁.foldl credLineStep st = l₂.foldl credLineStep st := by
  induction l₁ with
  | nil => intro l₂ st h; cases l₂ with
    | nil => rfl
    | cons b bs => simp at h
  | cons a as ih =>
    intro l₂ st h
    cases l₂ with
    | nil => simp at h
    | cons b bs =>
      simp only [List.map_cons, List.cons.injEq] at h
      simp only [List.foldl_cons]
      rw [show credLineStep st a = credLineStep st b from by
        simp only [credLineStep, h.1]]
      exact ih bs _ h.2

theorem parseCredentialBlocks_congr (l₁ l₂ : List Str)
    (h : l₁.map trimStr = l₂.map trimStr) :
    parseCredentialBlocks l₁ = parseCredentialBlocks l₂ := by
  unfold parseCredentialBlocks credFoldResult
  rw [foldl_credLineStep_congr l₁ l₂ _ h]

theorem map_append_ws_trim (lines : List Str) (ws : Str)
    (h : ∀ c ∈ ws, isWSChar c = true) :
    (lines.map (fun l => l ++ ws)).map trimStr = lines.map trimStr := by
  induction lines with
  | nil => rfl
  | cons a as ih => simp [trimStr_append_ws a ws h, ih]

/-- Emitted credentials have the three required fields non-empty. -/
def credOk (c : Credential) : Prop :=
  c.url ≠ [] ∧ c.username ≠ [] ∧ c.password ≠ []

theorem buildCred_ok {cur : CurCred} (h : is_valid_credential cur = true) :
    credOk (buildCred cur) := by
  unfold is_valid_credential truthy at h
  unfold credOk buildCred
  cases hcu : cur.url <;> cases hcn : cur.username <;> cases hcp : cur.password <;>
    simp_all

theorem credLineStep_inv (st : CurCred × List Credential) (line : Str)
    (h : ∀ c ∈ st.2, credOk c) :
    ∀ c ∈ (credLineStep st line).2, credOk c := by
  unfold credLineStep credLineCore
  split
  · split
    · intro c hc
      rcases List.mem_append.mp hc with hold | hnew
      · exact h c hold
      · rw [List.mem_singleton.mp hnew]
        exact buildCred_ok (by assumption)
    · exact h
  · exact h

theorem foldl_cred_inv (lines : List Str) :
    ∀ (st : CurCred × List Credential), (∀ c ∈ st.2, credOk c) →
      ∀ c ∈ (lines.foldl credLineStep st).2, credOk c := by
  induction lines with
  | nil => intro st h; exact h
  | cons a as ih =>
    intro st h
    simp only [List.foldl_cons]
    exact ih _ (credLineStep_inv st a h)

theorem parseCredentialBlocks_ok (lines : List Str) :
    ∀ c ∈ parseCredentialBlocks lines, credOk c := by
  unfold parseCredentialBlocks
  split
  · intro c hc
    rcases List.mem_append.mp hc with hold | hnew
    · exact foldl_cred_inv lines (emptyCur, []) (by simp) c hold
    · rw [List.mem_singleton.mp hnew]
      exact buildCred_ok (by assumption)
  · exact foldl_cred_inv lines (emptyCur, []) (by simp)

/-- C4: the credential parser emits a credential only when a block has all
    three of a host/URL, a username and a password (every emitted record
    has the three fields non-empty); a host+username block with no
    password is discarded entirely; and the emitted credentials depend
    only on the whitespace-stripped lines, so trailing whitespace on the
    lines of a block changes nothing. -/
theorem C4_credentials_require_all_three_fields :
    (∀ content c, c ∈ (parse_password_file content).credentials →
      c.url ≠ [] ∧ c.username ≠ [] ∧ c.password ≠ []) ∧
    (parse_password_file (str "URL: https://example.com/login\nUsername: alice\n")).credentials
      = [] ∧
    (∀ lines ws, (∀ ch ∈ ws, isWSChar ch = true) →
      parseCredentialBlocks (lines.map (fun l => l ++ ws)) = parseCredentialBlocks lines) := by
  refine ⟨?_, by decide, ?_⟩
  · intro content c hc
    unfold parse_password_file at hc
    split at hc
    · simp at hc
    · exact parseCredentialBlocks_ok _ c hc
  · intro lines ws h
    exact parseCredentialBlocks_congr _ _ (map_append_ws_trim lines ws h)

theorem C4_witness :
    ((parse_password_file
        (str "URL: https://example.com/login\nUsername: alice\nPassword: hunter2")).credentials.all
      (fun c => !c.password.isEmpty)) = true ∧
    parseCredentialBlocks
        ([str "Url: https://a.example", str "Login: u", str "Pass: p"].map
          (fun l => l ++ str "  ")) =
      parseCredentialBlocks [str "Url: https://a.example", str "Login: u", str "Pass: p"] := by
  constructor
  · have h1 := C4_credentials_require_all_three_fields.1
      (str "URL: https://example.com/login\nUsername: alice\nPassword: hunter2")
    simp only [List.all_eq_true]
    intro c hc
    have := (h1 c hc).2.2
    simp_all
  · exact C4_credentials_require_all_three_fields.2.2
      [str "Url: https://a.example", str "Login: u", str "Pass: p"] (str "  ") (by decide)

/-- C5: domain/TLD derivation — scheme and leading `www.` are stripped,
    the host is cut at `/` and `:` and split on `.`; with at least two
    labels (and a non-IP host) the TLD is the last label and the domain
    the last two labels joined by `.`; an IPv4 host yields the host itself
    as domain with a null TLD; including the two concrete examples. -/
theorem C5_domain_tld_derivation :
    (∀ url, isIpAddress url = false → 2 ≤ (hostLabels url).length →
      extract_url_info url =
        ⟨some (joinSep '.' ((hostLabels url).drop ((hostLabels url).length - 2))),
          some ((hostLabels url).getLastD [])⟩) ∧
    (∀ url, isIpAddress url = true → (trimStr url).isEmpty = false →
      extract_url_info url = ⟨some (hostOf url), none⟩) ∧
    extract_url_info (str "https://www.Example.com/login") =
      ⟨some (str "example.com"), some (str "com")⟩ ∧
    extract_url_info (str "192.168.1.5") = ⟨some (str "192.168.1.5"), none⟩ := by
  refine ⟨?_, ?_, by decide, by decide⟩
  · intro url hip hlen
    have hne : (trimStr url).isEmpty = false := by
      cases htrim : (trimStr url).isEmpty
      · rfl
      · exfalso
        have ht : trimStr url = [] := by
          cases h : trimStr url
          · rfl
          · rw [h] at htrim; simp at htrim
        have hh : hostOf url = [] := by
          unfold hostOf
          rw [ht]
          rfl
        have : hostLabels url = [[]] := by
          unfold hostLabels
          rw [hh]
          rfl
        rw [this] at hlen
        simp at hlen
    unfold extract_url_info
    rw [hne, hip]
    simp only [Bool.false_eq_true, if_false]
    rw [if_pos hlen]
    by_cases h2 : 2 < (hostLabels url).length
    · rw [if_pos h2]
    · rw [if_neg h2]
      have hexact : (hostLabels url).length = 2 := le_antisymm (not_lt.mp h2) hlen
      rw [hexact]
      simp only [Nat.sub_self, List.drop_zero]
      unfold hostLabels
      rw [joinSep_splitOnChar]
  · intro url hip hne
    unfold extract_url_info
    rw [hne, hip]
    simp

theorem C5_witness :
    extract_url_info (str "https://shop.example.org/x") =
      ⟨some (str "example.org"), some (str "org")⟩ ∧
    extract_url_info (str "10.0.0.1") = ⟨some (str "10.0.0.1"), none⟩ := by
  constructor
  · rw [C5_domain_tld_derivation.1 (str "https://shop.example.org/x") (by decide) (by decide)]
    decide
  · rw [C5_domain_tld_derivation.2.1 (str "10.0.0.1") (by decide) (by decide)]
    decide

/-- C6: card brand detection is the fixed-precedence prefix rule table
    (Visa; Mastercard 51–55 / 2221–2720; Amex; Discover; JCB; Diners),
    first match wins, no match yields Unknown; `"2223000048400011"` maps
    to Mastercard and every all-digit number starting with `4` maps to
    Visa regardless of later rules. -/
theorem C6_card_brand_precedence :
    (∀ card, detect_card_brand card = detect_card_brand_spec card) ∧
    detect_card_brand (str "2223000048400011") = "Mastercard" ∧
    (∀ card, isDigitStr (cleanNumber card) = true →
      (cleanNumber card).headD ' ' = '4' → detect_card_brand card = "Visa") := by
  refine ⟨detect_eq_spec_table, by decide, ?_⟩
  intro card hdig h4
  unfold detect_card_brand detectBrandOf
  rw [hdig]
  have hv : visaTest (cleanNumber card) = true := by
    unfold visaTest
    rw [h4]
    rfl
  rw [hv]
  rfl

theorem C6_witness :
    detect_card_brand (str "4012888888881881") = "Visa" ∧
    detect_card_brand (str "6011000990139424") = detect_card_brand_spec (str "6011000990139424") :=
  ⟨C6_card_brand_precedence.2.2 (str "4012888888881881") (by decide) (by decide),
    C6_card_brand_precedence.1 (str "6011000990139424")⟩

/-! ## Wallet parser

Embeds `WalletParser` from `backend/app/services/wallet_parser.py`:
`parse_wallet_file` (lines 66–83), `_parse_structured_format`,
`_parse_by_patterns`, `_is_mnemonic` and `_create_wallet_from_dict`.
The regex scans of `_parse_by_patterns` are embedded as executable
left-to-right, non-overlapping scanners with `\b` treated as the usual
word/non-word boundary (`\w` = ASCII alphanumeric or `_`).  Python
iterates `set(...)` in unspecified order; the embedding keeps first
occurrence order. -/

/-- A `\w` character. -/
def isWordChar (c : Char) : Bool := c.isAlphanum || c == '_'

/-- A `[a-fA-F0-9]` character. -/
def isHexChar (c : Char) : Bool :=
  c.isDigit || ('a' ≤ c && c ≤ 'f') || ('A' ≤ c && c ≤ 'F')

/-- A base58 character `[a-km-zA-HJ-NP-Z1-9]`. -/
def isB58Char (c : Char) : Bool :=
  (('a' ≤ c && c ≤ 'z') && c != 'l') ||
    (('A' ≤ c && c ≤ 'Z') && c != 'I' && c != 'O') ||
    ('1' ≤ c && c ≤ '9')

/-- A bech32 body character `[a-z0-9]`. -/
def isBech32Char (c : Char) : Bool := ('a' ≤ c && c ≤ 'z') || c.isDigit

/-- `\b` between an optional previous character and a word character. -/
def nonWordBoundary : Option Char → Bool
  | none => true
  | some c => !isWordChar c

/-- Generalisation of `splitOnChar` to a character predicate. -/
def splitOnPred (p : Char → Bool) : Str → List Str
  | [] => [[]]
  | x :: xs =>
    match splitOnPred p xs with
    | [] => [[]]
    | a :: as => if p x then [] :: a :: as else (x :: a) :: as

/-- Python `s.split()` (split on whitespace runs, no empty pieces). -/
def splitWS (l : Str) : List Str :=
  (splitOnPred isWSChar l).filter (fun w => !w.isEmpty)

/-- `_is_mnemonic`: 12/15/18/21/24 whitespace-separated all-alphabetic
    words. -/
def is_mnemonic (t : Str) : Bool :=
  let words := splitWS (trimStr t)
  [12, 15, 18, 21, 24].contains words.length &&
    words.all (fun w => !w.isEmpty && w.all Char.isAlpha)

/-- The `WalletInfo` dataclass. -/
structure WalletInfo where
  wallet_type : Str
  mnemonic : Option Str
  private_key : Option Str
  password : Option Str
  address : Option Str
  path : Option Str
  source_file : Option Str
deriving DecidableEq

/-- The in-progress `current_wallet` dict of `_parse_structured_format`. -/
structure CurWallet where
  mnemonic : Option Str
  private_key : Option Str
  password : Option Str
  address : Option Str
  wallet_type : Option Str
  path : Option Str
deriving DecidableEq

/-- The empty dict. -/
def emptyCurWallet : CurWallet := ⟨none, none, none, none, none, none⟩

/-- An empty or separator line of the structured wallet format
    (`not line or set(line).issubset({'=', '_', '-', '|', ' '})`). -/
def walletBlockEnd (t : Str) : Bool :=
  t.all (fun c => c == '=' || c == '_' || c == '-' || c == '|' || c == ' ')

/-- `line.split(':', 1)[0].strip().lower()`. -/
def keyOf (t : Str) : Str := lowerStr (trimStr (t.takeWhile (fun c => c != ':')))

/-- `line.split(':', 1)[1].strip()`. -/
def valOf (t : Str) : Str := trimStr ((t.dropWhile (fun c => c != ':')).drop 1)

/-- Field assignment of `_parse_structured_format` for one stripped line. -/
def walletFieldStep (cur : CurWallet) (t : Str) : CurWallet :=
  if t.contains ':' then
    if isSubstr (str "mnemonic") (keyOf t) || isSubstr (str "seed") (keyOf t) ||
        isSubstr (str "phrase") (keyOf t) then
      { cur with mnemonic := some (valOf t) }
    else if isSubstr (str "private") (keyOf t) || isSubstr (str "key") (keyOf t) then
      { cur with private_key := some (valOf t) }
    else if isSubstr (str "password") (keyOf t) || isSubstr (str "pass") (keyOf t) then
      { cur with password := some (valOf t) }
    else if isSubstr (str "address") (keyOf t) || isSubstr (str "wallet") (keyOf t) then
      { cur with address := some (valOf t) }
    else if isSubstr (str "type") (keyOf t) then
      { cur with wallet_type := some (valOf t) }
    else if isSubstr (str "path") (keyOf t) || isSubstr (str "derivation") (keyOf t) then
      { cur with path := some (valOf t) }
    else cur
  else if is_mnemonic t then { cur with mnemonic := some t }
  else cur

/-- `_create_wallet_from_dict`: `None` for an empty dict, else a
    `WalletInfo` whose type is auto-detected from the address shape and
    mnemonic presence. -/
def create_wallet_from_dict (d : CurWallet) (filename : Str) : Option WalletInfo :=
  if d = emptyCurWallet then none
  else
    let wt0 := d.wallet_type.getD (str "unknown")
    let wt1 :=
      match d.address with
      | some addr =>
        if (str "0x").isPrefixOf addr then str "ETH"
        else if (str "bc1").isPrefixOf addr then str "BTC"
        else if addr.headD ' ' == '1' || addr.headD ' ' == '3' then str "BTC"
        else wt0
      | none => wt0
    let wt2 := if d.mnemonic.isSome && wt1 == str "unknown" then str "multi" else wt1
    some ⟨wt2, d.mnemonic, d.private_key, d.password, d.address, d.path, some filename⟩

/-- One raw line of `_parse_structured_format`: strip, then either flush
    the block at an empty/separator line or update its fields. -/
def walletLineStep (st : CurWallet × List WalletInfo) (line : Str) (filename : Str) :
    CurWallet × List WalletInfo :=
  let t := trimStr line
  if walletBlockEnd t then
    (emptyCurWallet, st.2 ++ (create_wallet_from_dict st.1 filename).toList)
  else (walletFieldStep st.1 t, st.2)

/-- `_parse_structured_format` (lines 85–131): fold the lines, then flush
    the trailing block. -/
def parse_structured_format (lines : List Str) (filename : Str) : List WalletInfo :=
  ((lines.foldl (fun st line => walletLineStep st line filename) (emptyCurWallet, [])).2 ++
    (create_wallet_from_dict
      (lines.foldl (fun st line => walletLineStep st line filename) (emptyCurWallet, [])).1
      filename).toList)

/-- `\b0x[a-fA-F0-9]{40}\b` match attempt at the head of `l`: the
    captured text, the last consumed character, and the rest. -/
def matchEthAt (l : Str) : Option (Str × Char × Str) :=
  match l with
  | '0' :: 'x' :: rest =>
    if (rest.take 40).length = 40 && (rest.take 40).all isHexChar &&
        nonWordBoundary (rest.drop 40).head? then
      some ('0' :: 'x' :: rest.take 40, (rest.take 40).getLastD 'x', rest.drop 40)
    else none
  | _ => none

/-- `\b[a-fA-F0-9]{64}\b` match attempt at the head of `l`. -/
def matchHex64At (l : Str) : Option (Str × Char × Str) :=
  if (l.takeWhile isHexChar).length = 64 && nonWordBoundary (l.drop 64).head? then
    some (l.take 64, (l.take 64).getLastD ' ', l.drop 64)
  else none

/-- `\b[13][a-km-zA-HJ-NP-Z1-9]{25,34}\b` match attempt at the head of
    `l`: all shorter backtracks end on a word character, so the run of
    base58 characters must itself be 25–34 long and end at a non-word
    character. -/
def matchBtcLegacyAt (l : Str) : Option (Str × Char × Str) :=
  match l with
  | c :: rest =>
    if (c == '1' || c == '3') &&
        decide (25 ≤ (rest.takeWhile isB58Char).length) &&
        decide ((rest.takeWhile isB58Char).length ≤ 34) &&
        nonWordBoundary (rest.drop (rest.takeWhile isB58Char).length).head? then
      some (c :: rest.takeWhile isB58Char, (rest.takeWhile isB58Char).getLastD c,
        rest.drop (rest.takeWhile isB58Char).length)
    else none
  | _ => none

/-- `\bbc1[a-z0-9]{39,59}\b` match attempt at the head of `l`. -/
def matchBtcSegwitAt (l : Str) : Option (Str × Char × Str) :=
  match l with
  | 'b' :: 'c' :: '1' :: rest =>
    if decide (39 ≤ (rest.takeWhile isBech32Char).length) &&
        decide ((rest.takeWhile isBech32Char).length ≤ 59) &&
        nonWordBoundary (rest.drop (rest.takeWhile isBech32Char).length).head? then
      some ('b' :: 'c' :: '1' :: rest.takeWhile isBech32Char,
        (rest.takeWhile isBech32Char).getLastD '1',
        rest.drop (rest.takeWhile isBech32Char).length)
    else none
  | _ => none

/-- Greedily read `(letters, whitespace)` unit pairs, fuelled. -/
def takeWordPairs : Str → Nat → (List (Str × Str)) × Str
  | l, 0 => ([], l)
  | l, Nat.succ fuel =>
    if (l.takeWhile Char.isAlpha).isEmpty then ([], l)
    else
      if ((l.drop (l.takeWhile Char.isAlpha).length).takeWhile isWSChar).isEmpty then ([], l)
      else
        let w := l.takeWhile Char.isAlpha
        let s := (l.drop w.length).takeWhile isWSChar
        let res := takeWordPairs ((l.drop w.length).drop s.length) fuel
        ((w, s) :: res.1, res.2)

/-- Concatenate unit pairs back into text. -/
def flattenPairs (ps : List (Str × Str)) : Str :=
  ps.foldr (fun p acc => p.1 ++ p.2 ++ acc) []

/-- `\b([a-z]+\s+){11,23}[a-z]+\b` (IGNORECASE) match attempt at the head
    of `l`.  `findall` returns the capture of group 1, which is the last
    repeated `word+whitespace` unit of the greedy match.  With `n` the
    number of units taken (greedy, at most 23, at least 11), the final
    `[a-z]+` is the next unit's word when `n` is below the available unit
    count, and the trailing word after the units otherwise. -/
def matchMnemonicAt (l : Str) : Option (Str × Char × Str) :=
  let res := takeWordPairs l l.length
  let pairs := res.1
  let rest := res.2
  let count := pairs.length
  let f := rest.takeWhile Char.isAlpha
  let afterF := rest.drop f.length
  if 23 < count then
    some ((pairs.getD 22 ([], [])).1 ++ (pairs.getD 22 ([], [])).2,
      (pairs.getD 23 ([], [])).1.getLastD ' ',
      (pairs.getD 23 ([], [])).2 ++ flattenPairs (pairs.drop 24) ++ rest)
  else if 11 ≤ count && !f.isEmpty && nonWordBoundary afterF.head? then
    some ((pairs.getD (count - 1) ([], [])).1 ++ (pairs.getD (count - 1) ([], [])).2,
      f.getLastD ' ', afterF)
  else if 12 ≤ count then
    some ((pairs.getD (count - 2) ([], [])).1 ++ (pairs.getD (count - 2) ([], [])).2,
      (pairs.getD (count - 1) ([], [])).1.getLastD ' ',
      (pairs.getD (count - 1) ([], [])).2 ++ rest)
  else none

/-- Left-to-right, non-overlapping scan with word-boundary tracking
    (`re.findall` driver). -/
def scanAll (matchAt : Str → Option (Str × Char × Str)) :
    Option Char → Str → Nat → List Str
  | _, _, 0 => []
  | prev, l, Nat.succ fuel =>
    match l with
    | [] => []
    | c :: rest =>
      if nonWordBoundary prev then
        match matchAt l with
        | some (cap, lastc, after) => cap :: scanAll matchAt (some lastc) after fuel
        | none => scanAll matchAt (some c) rest fuel
      else scanAll matchAt (some c) rest fuel

/-- `re.findall(pattern, content)`. -/
def findallPat (matchAt : Str → Option (Str × Char × Str)) (content : Str) : List Str :=
  scanAll matchAt none content content.length

/-- `set(...)` modelled as first-occurrence-order deduplication (Python's
    set iteration order is unspecified). -/
def dedupStr (l : List Str) : List Str :=
  l.foldl (fun acc x => if acc.contains x then acc else acc ++ [x]) []

/-- `_parse_by_patterns` (lines 133–183): mnemonic captures filtered by
    `_is_mnemonic`, then ETH addresses, BTC legacy and segwit addresses,
    and 64-hex private keys. -/
def parse_by_patterns (content : Str) (filename : Str) : List WalletInfo :=
  (findallPat matchMnemonicAt content).foldl (fun acc m =>
      if is_mnemonic (trimStr m) then
        acc ++ [⟨str "multi", some (trimStr m), none, none, none, none, some filename⟩]
      else acc) [] ++
  (dedupStr (findallPat matchEthAt content)).map
    (fun a => (⟨str "ETH", none, none, none, some a, none, some filename⟩ : WalletInfo)) ++
  (dedupStr (findallPat matchBtcLegacyAt content)).map
    (fun a => (⟨str "BTC", none, none, none, some a, none, some filename⟩ : WalletInfo)) ++
  (dedupStr (findallPat matchBtcSegwitAt content)).map
    (fun a => (⟨str "BTC", none, none, none, some a, none, some filename⟩ : WalletInfo)) ++
  (dedupStr (findallPat matchHex64At content)).map
    (fun k => (⟨str "multi", none, some k, none, none, none, some filename⟩ : WalletInfo))

/-- `parse_wallet_file` (lines 66–83): empty content gives nothing; the
    structured strategy runs first and its result is returned when
    non-empty; only otherwise does the pattern scan run. -/
def parse_wallet_file (content : Str) (filename : Str) : List WalletInfo :=
  if (trimStr content).isEmpty then []
  else if !(parse_structured_format (splitOnChar '\n' content) filename).isEmpty then
    parse_structured_format (splitOnChar '\n' content) filename
  else parse_by_patterns content filename

/-- A wallet file whose structured block yields one ETH-address wallet
    while the full-text pattern scan would also find a 64-hex private
    key. -/
def walletBothContent : Str :=
  str "Address: 0xAbCdEf0123456789aBcDeF0123456789AbCdEf01\n0123456789abcdef0123456789abcdef0123456789abcdef0123456789abcdef"

/-- A wallet file with no structured block, only a bare 64-hex private
    key for the pattern scan. -/
def walletKeyOnlyContent : Str :=
  str "0123456789abcdef0123456789abcdef0123456789abcdef0123456789abcdef"

/-- C7 counterexample: on `walletBothContent` the parser returns only the
    single structured wallet (no private key), although the pattern scan
    finds a private-key wallet — the two strategies' results are not
    unioned. -/
theorem C7_counterexample :
    (parse_wallet_file walletBothContent (str "wallet.txt")).length = 1 ∧
    ((parse_wallet_file walletBothContent (str "wallet.txt")).all
      (fun w => w.private_key = none)) = true ∧
    ((parse_by_patterns walletBothContent (str "wallet.txt")).any
      (fun w => w.private_key.isSome)) = true := by
  refine ⟨by decide, by decide, by decide⟩

/-- C7 (amended): the two wallet-parsing strategies form a fallback
    chain, not a union — the structured key:value strategy runs first and
    its results are returned alone whenever it yields at least one
    wallet; the full-text pattern scan runs only when the structured
    strategy yields none. -/
theorem C7_wallet_strategies_exclusive :
    (∀ content filename, (trimStr content).isEmpty = false →
      parse_structured_format (splitOnChar '\n' content) filename ≠ [] →
      parse_wallet_file content filename =
        parse_structured_format (splitOnChar '\n' content) filename) ∧
    (∀ content filename, (trimStr content).isEmpty = false →
      parse_structured_format (splitOnChar '\n' content) filename = [] →
      parse_wallet_file content filename = parse_by_patterns content filename) := by
  constructor <;> intro content filename hne hs <;> unfold parse_wallet_file <;>
    rw [hne] <;> simp_all

theorem C7_witness :
    parse_wallet_file walletBothContent (str "wallet.txt") =
      parse_structured_format (splitOnChar '\n' walletBothContent) (str "wallet.txt") ∧
    parse_wallet_file walletKeyOnlyContent (str "k.txt") =
      parse_by_patterns walletKeyOnlyContent (str "k.txt") := by
  constructor
  · exact C7_wallet_strategies_exclusive.1 walletBothContent (str "wallet.txt")
      (by decide) (by decide)
  · exact C7_wallet_strategies_exclusive.2 walletKeyOnlyContent (str "k.txt")
      (by decide) (by decide)

/-! ## ZIP ingestion orchestrator

Embeds `ZipIngestionService.process_zip_file` from
`backend/app/services/zip_ingestion.py` (lines 74–177) as a state
machine over the persistent store.  The store collaborator (§6 of the
spec) is abstracted to the list of committed device hashes, in commit
order — `commit_device` appends the device's whole record set
atomically, and a failed per-device commit leaves the store unchanged
(the session's pending rows for that device are rolled back, committed
devices persist).  Reading a device's files from the archive is recorded
in an explicit read log.  The per-device commit and the per-device
credential/file statistics computed by `_process_device` are oracle
parameters. -/

/-- Modelled from the spec: `compute_device_hash` lives in
    `zip_processor.py`, which is not among the provided sources (only its
    callers are).  Spec §3/§4.1: device identity is a stable digest over
    the case/whitespace-normalized device display name; the digest is
    modelled as the normalized name itself, a collision-free stand-in. -/
def compute_device_hash (name : Str) : Str := lowerStr (trimStr name)

/-- The `Upload` row (`models.py` lines 141–156): counter columns default
    to 0 and are only filled in by the success path. -/
structure UploadRec where
  status : String
  devices_found : Nat
  devices_processed : Nat
  devices_skipped : Nat
  total_credentials : Nat
  total_files : Nat
  error_message : Option String
  completed : Bool
deriving DecidableEq

/-- The freshly created upload row (`status="processing"`, defaults). -/
def initUpload : UploadRec := ⟨"processing", 0, 0, 0, 0, 0, none, false⟩

/-- The result dict returned by `process_zip_file` on success. -/
structure BatchSummary where
  devices_found : Nat
  devices_processed : Nat
  devices_skipped : Nat
  total_credentials : Nat
  total_files : Nat
deriving DecidableEq

/-- Counters accumulated by the device loop. -/
structure DevCounters where
  processed : Nat
  skipped : Nat
  creds : Nat
  files : Nat
deriving DecidableEq

/-- Outcome of one archive-processing run: the returned summary or the
    re-raised exception, the final upload row, the committed store, and
    the device read log. -/
structure RunResult where
  outcome : Except String BatchSummary
  upload : UploadRec
  store : List Str
  reads : List Str

/-- `true` on the exception path. -/
def isErrorOutcome : Except String BatchSummary → Bool
  | .error _ => true
  | .ok _ => false

/-- The device loop of `process_zip_file` (lines 107–134): skip a device
    whose hash is in the pre-computed existing set without reading it,
    otherwise read and process it and commit; a commit failure raises,
    ending the loop. -/
def processDevices (commit : Str → Except String Unit) (devStats : Str → Nat × Nat)
    (existing : List Str) :
    List Str → DevCounters → List Str → List Str →
    Except String DevCounters × List Str × List Str
  | [], cnt, store, reads => (.ok cnt, store, reads)
  | name :: rest, cnt, store, reads =>
    if existing.contains (compute_device_hash name) then
      processDevices commit devStats existing rest
        { cnt with skipped := cnt.skipped + 1 } store reads
    else
      match commit (compute_device_hash name) with
      | .ok _ =>
        processDevices commit devStats existing rest
          { cnt with
            processed := cnt.processed + 1,
            creds := cnt.creds + (devStats (compute_device_hash name)).1,
            files := cnt.files + (devStats (compute_device_hash name)).2 }
          (store ++ [compute_device_hash name]) (reads ++ [name])
      | .error e => (.error e, store, reads ++ [name])

/-- `process_zip_file`: compute the existing-hash set once up front
    (`_get_existing_device_hashes`, lines 167–177), run the device loop,
    then either fill in and complete the upload row and return the
    summary, or mark the upload failed and re-raise. -/
def process_zip_file (deviceMap : List Str) (store₀ : List Str)
    (commit : Str → Except String Unit) (devStats : Str → Nat × Nat) : RunResult :=
  match processDevices commit devStats
      ((deviceMap.map compute_device_hash).filter (fun h => store₀.contains h))
      deviceMap ⟨0, 0, 0, 0⟩ store₀ [] with
  | (.ok cnt, store, reads) =>
    { outcome := .ok ⟨deviceMap.length, cnt.processed, cnt.skipped, cnt.creds, cnt.files⟩,
      upload := ⟨"completed", deviceMap.length, cnt.processed, cnt.skipped, cnt.creds,
        cnt.files, none, true⟩,
      store := store, reads := reads }
  | (.error e, store, reads) =>
    { outcome := .error e,
      upload := { initUpload with status := "failed", error_message := some e },
      store := store, reads := reads }

/-! ### Lemmas for the ingestion loop -/

theorem strListContains_iff (l : List Str) (a : Str) : l.contains a = true ↔ a ∈ l := by
  simp

theorem existing_contains_eq (dm store₀ : List Str) (n : Str) (hn : n ∈ dm) :
    ((dm.map compute_device_hash).filter (fun h => store₀.contains h)).contains
        (compute_device_hash n) =
      store₀.contains (compute_device_hash n) := by
  by_cases hs : store₀.contains (compute_device_hash n) = true
  · rw [hs]
    exact (strListContains_iff _ _).mpr
      (List.mem_filter.mpr ⟨List.mem_map_of_mem compute_device_hash hn, hs⟩)
  · rw [Bool.eq_false_iff.mpr hs]
    rw [Bool.eq_false_iff]
    intro hcon
    exact hs (List.mem_filter.mp ((strListContains_iff _ _).mp hcon)).2

theorem processDevices_ok_mem (commit : Str → Except String Unit)
    (devStats : Str → Nat × Nat) (existing : List Str) (names : List Str) :
    ∀ (cnt : DevCounters) (store reads : List Str) (cnt' : DevCounters)
      (store' reads' : List Str),
      processDevices commit devStats existing names cnt store reads =
        (.ok cnt', store', reads') →
      (∀ h, existing.contains h = true → h ∈ store) →
      (∀ h ∈ store, h ∈ store') ∧ (∀ n ∈ names, compute_device_hash n ∈ store') := by
  induction names with
  | nil =>
    intro cnt store reads cnt' store' reads' hrun hex
    simp only [processDevices, Prod.mk.injEq] at hrun
    obtain ⟨-, hstore, -⟩ := hrun
    exact ⟨fun h hh => hstore ▸ hh, by simp⟩
  | cons name rest ih =>
    intro cnt store reads cnt' store' reads' hrun hex
    simp only [processDevices] at hrun
    by_cases hc : existing.contains (compute_device_hash name) = true
    · rw [if_pos hc] at hrun
      obtain ⟨hsub, hall⟩ := ih _ _ _ _ _ _ hrun hex
      refine ⟨hsub, ?_⟩
      intro n hn
      rcases List.mem_cons.mp hn with rfl | hmem
      · exact hsub _ (hex _ hc)
      · exact hall n hmem
    · rw [if_neg hc] at hrun
      cases hcommit : commit (compute_device_hash name) with
      | error e => rw [hcommit] at hrun; simp at hrun
      | ok u =>
        rw [hcommit] at hrun
        obtain ⟨hsub, hall⟩ := ih _ _ _ _ _ _ hrun
          (fun h hh => List.mem_append_left _ (hex h hh))
        refine ⟨fun h hh => hsub h (List.mem_append_left _ hh), ?_⟩
        intro n hn
        rcases List.mem_cons.mp hn with rfl | hmem
        · exact hsub _ (List.mem_append_right _ (List.mem_singleton.mpr rfl))
        · exact hall n hmem

theorem processDevices_all_skip (commit : Str → Except String Unit)
    (devStats : Str → Nat × Nat) (existing : List Str) (names : List Str) :
    ∀ (cnt : DevCounters) (store reads : List Str),
      (∀ n ∈ names, existing.contains (compute_device_hash n) = true) →
      processDevices commit devStats existing names cnt store reads =
        (.ok { cnt with skipped := cnt.skipped + names.length }, store, reads) := by
  induction names with
  | nil => intro cnt store reads _; simp [processDevices]
  | cons name rest ih =>
    intro cnt store reads h
    simp only [processDevices]
    rw [if_pos (h name (by simp))]
    rw [ih _ _ _ (fun n hn => h n (by simp [hn]))]
    simp
    omega

theorem processDevices_first_fail (commit : Str → Except String Unit)
    (devStats : Str → Nat × Nat) (existing : List Str) (name : Str)
    (post : List Str) (e : String)
    (hskip : existing.contains (compute_device_hash name) = false)
    (hfail : commit (compute_device_hash name) = .error e) :
    ∀ (pre : List Str) (cnt : DevCounters) (store reads : List Str),
      (∀ n ∈ pre, existing.contains (compute_device_hash n) = true ∨
        commit (compute_device_hash n) = .ok ()) →
      processDevices commit devStats existing (pre ++ name :: post) cnt store reads =
        (.error e,
          store ++ (pre.filter
            (fun n => !existing.contains (compute_device_hash n))).map compute_device_hash,
          reads ++ (pre.filter
            (fun n => !existing.contains (compute_device_hash n))) ++ [name]) := by
  intro pre
  induction pre with
  | nil =>
    intro cnt store reads _
    simp only [List.nil_append, processDevices]
    rw [hskip, hfail]
    simp
  | cons p pre' ih =>
    intro cnt store reads h
    simp only [List.cons_append, processDevices]
    by_cases hc : existing.contains (compute_device_hash p) = true
    · rw [if_pos hc]
      simp only [List.append_eq]
      rw [ih _ _ _ (fun n hn => h n (by simp [hn]))]
      have hm : compute_device_hash p ∈ existing := (strListContains_iff _ _).mp hc
      simp [List.filter_cons, hm, hc]
    · have hok : commit (compute_device_hash p) = .ok () := by
        rcases h p (by simp) with hl | hr
        · exact absurd hl hc
        · exact hr
      rw [if_neg hc]
      simp only [hok, List.append_eq]
      rw [ih _ _ _ (fun n hn => h n (by simp [hn]))]
      have hm : compute_device_hash p ∉ existing := fun hmm =>
        hc ((strListContains_iff _ _).mpr hmm)
      simp [List.filter_cons, hm, Bool.eq_false_iff.mpr hc]

/-- C2: ingestion is idempotent per device hash — after a run whose
    outcome is a success summary, a second run over the same device map
    (any commit/stats oracles) skips every device: it reads no device's
    files, commits nothing, and reports `devices_processed = 0` and
    `devices_skipped = devices_found`. -/
theorem C2_ingestion_idempotent (dm store₀ : List Str)
    (commit : Str → Except String Unit) (devStats : Str → Nat × Nat)
    (commit₂ : Str → Except String Unit) (devStats₂ : Str → Nat × Nat)
    (s : BatchSummary)
    (h : (process_zip_file dm store₀ commit devStats).outcome = .ok s) :
    (process_zip_file dm (process_zip_file dm store₀ commit devStats).store
        commit₂ devStats₂).outcome = .ok ⟨dm.length, 0, dm.length, 0, 0⟩ ∧
    (process_zip_file dm (process_zip_file dm store₀ commit devStats).store
        commit₂ devStats₂).store = (process_zip_file dm store₀ commit devStats).store ∧
    (process_zip_file dm (process_zip_file dm store₀ commit devStats).store
        commit₂ devStats₂).reads = [] := by
  rcases hrun : processDevices commit devStats
      ((dm.map compute_device_hash).filter (fun x => store₀.contains x))
      dm ⟨0, 0, 0, 0⟩ store₀ [] with ⟨o, store1, reads1⟩
  have hstore : (process_zip_file dm store₀ commit devStats).store = store1 := by
    unfold process_zip_file
    rw [hrun]
    cases o <;> rfl
  have hok : ∃ cnt, o = .ok cnt := by
    unfold process_zip_file at h
    rw [hrun] at h
    cases o with
    | error e => simp at h
    | ok cnt => exact ⟨cnt, rfl⟩
  obtain ⟨cnt, rfl⟩ := hok
  have hex₀ : ∀ x, ((dm.map compute_device_hash).filter
      (fun x => store₀.contains x)).contains x = true → x ∈ store₀ := by
    intro x hx
    have hmemf := (strListContains_iff _ _).mp hx
    exact (strListContains_iff _ _).mp (List.mem_filter.mp hmemf).2
  have hmem : ∀ n ∈ dm, compute_device_hash n ∈ store1 :=
    (processDevices_ok_mem commit devStats _ dm _ _ _ _ _ _ hrun hex₀).2
  rw [hstore]
  have hall : ∀ n ∈ dm, ((dm.map compute_device_hash).filter
      (fun x => store1.contains x)).contains (compute_device_hash n) = true := by
    intro n hn
    refine (strListContains_iff _ _).mpr (List.mem_filter.mpr ?_)
    exact ⟨List.mem_map_of_mem compute_device_hash hn,
      (strListContains_iff _ _).mpr (hmem n hn)⟩
  unfold process_zip_file
  rw [processDevices_all_skip commit₂ devStats₂ _ dm ⟨0, 0, 0, 0⟩ store1 [] hall]
  simp

theorem C2_witness :
    (process_zip_file [str "Device-A", str "Device-B"]
        (process_zip_file [str "Device-A", str "Device-B"] [] (fun _ => .ok ())
          (fun _ => (3, 4))).store
        (fun _ => .error "down") (fun _ => (9, 9))).outcome = .ok ⟨2, 0, 2, 0, 0⟩ ∧
    (process_zip_file [str "Device-A", str "Device-B"]
        (process_zip_file [str "Device-A", str "Device-B"] [] (fun _ => .ok ())
          (fun _ => (3, 4))).store
        (fun _ => .error "down") (fun _ => (9, 9))).reads = [] :=
  have h := C2_ingestion_idempotent [str "Device-A", str "Device-B"] [] (fun _ => .ok ())
    (fun _ => (3, 4)) (fun _ => .error "down") (fun _ => (9, 9)) ⟨2, 2, 0, 6, 8⟩ rfl
  ⟨h.1, h.2.2⟩

/-- The three-device archive of the claim's example. -/
def demoDevices : List Str := [str "Device-A", str "Device-B", str "Device-C"]

/-- A store commit oracle that fails exactly on device 2. -/
def demoCommit : Str → Except String Unit := fun h =>
  if h = compute_device_hash (str "Device-B") then .error "forced commit failure"
  else .ok ()

/-- Per-device statistics oracle for the example. -/
def demoStats : Str → Nat × Nat := fun _ => (0, 0)

/-- C1 counterexample: with 3 device groups and device 2's commit forced
    to fail, processing raises instead of returning a summary, the upload
    row reads `failed` with `devices_found = 0` and
    `devices_processed = 0` (not 3/2/0), device 3 is never attempted
    (absent from the read log) and its records are not in the store —
    only device 1's are. -/
theorem C1_counterexample :
    isErrorOutcome (process_zip_file demoDevices [] demoCommit demoStats).outcome = true ∧
    (process_zip_file demoDevices [] demoCommit demoStats).upload.status = "failed" ∧
    (process_zip_file demoDevices [] demoCommit demoStats).upload.devices_found = 0 ∧
    (process_zip_file demoDevices [] demoCommit demoStats).upload.devices_processed = 0 ∧
    (process_zip_file demoDevices [] demoCommit demoStats).store
      = [compute_device_hash (str "Device-A")] ∧
    (process_zip_file demoDevices [] demoCommit demoStats).reads
      = [str "Device-A", str "Device-B"] :=
  ⟨rfl, rfl, rfl, rfl, rfl, rfl⟩

/-- C1 (amended): when the first failing device commit is device k, the
    devices committed before k stay committed (no rollback) — but the
    batch aborts: the raised error is propagated, the upload row is
    marked `failed` with the error message and its counter columns left
    at their defaults (no `devices_found`/`devices_processed` summary),
    and the devices after k are never attempted — the store gains exactly
    the hashes of the non-skipped devices before k, and the read log ends
    at k. -/
theorem C1_per_device_commit_no_rollback_but_abort
    (pre : List Str) (name : Str) (post : List Str) (store₀ : List Str)
    (commit : Str → Except String Unit) (devStats : Str → Nat × Nat) (e : String)
    (hpre : ∀ n ∈ pre, store₀.contains (compute_device_hash n) = true ∨
      commit (compute_device_hash n) = .ok ())
    (hnew : store₀.contains (compute_device_hash name) = false)
    (hfail : commit (compute_device_hash name) = .error e) :
    (process_zip_file (pre ++ name :: post) store₀ commit devStats).outcome = .error e ∧
    (process_zip_file (pre ++ name :: post) store₀ commit devStats).upload.status
      = "failed" ∧
    (process_zip_file (pre ++ name :: post) store₀ commit devStats).upload.error_message
      = some e ∧
    (process_zip_file (pre ++ name :: post) store₀ commit devStats).upload.devices_found
      = 0 ∧
    (process_zip_file (pre ++ name :: post) store₀ commit
        devStats).upload.devices_processed = 0 ∧
    (process_zip_file (pre ++ name :: post) store₀ commit devStats).store
      = store₀ ++ (pre.filter
          (fun n => !store₀.contains (compute_device_hash n))).map compute_device_hash ∧
    (process_zip_file (pre ++ name :: post) store₀ commit devStats).reads
      = pre.filter (fun n => !store₀.contains (compute_device_hash n)) ++ [name] := by
  have hmemname : name ∈ pre ++ name :: post := by simp
  have hskip' : ((((pre ++ name :: post).map compute_device_hash).filter
      (fun h => store₀.contains h)).contains (compute_device_hash name)) = false := by
    rw [existing_contains_eq _ store₀ name hmemname]
    exact hnew
  have hpre' : ∀ n ∈ pre,
      ((((pre ++ name :: post).map compute_device_hash).filter
        (fun h => store₀.contains h)).contains (compute_device_hash n)) = true ∨
      commit (compute_device_hash n) = .ok () := by
    intro n hn
    rw [existing_contains_eq _ store₀ n (List.mem_append_left _ hn)]
    exact hpre n hn
  have hfilter : pre.filter (fun n =>
      !(((pre ++ name :: post).map compute_device_hash).filter
        (fun h => store₀.contains h)).contains (compute_device_hash n)) =
      pre.filter (fun n => !store₀.contains (compute_device_hash n)) := by
    apply List.filter_congr
    intro n hn
    rw [existing_contains_eq _ store₀ n (List.mem_append_left _ hn)]
  unfold process_zip_file
  rw [processDevices_first_fail commit devStats _ name post e hskip' hfail pre
    ⟨0, 0, 0, 0⟩ store₀ [] hpre']
  rw [hfilter]
  simp [initUpload]

theorem C1_witness :
    (process_zip_file ([str "Device-A"] ++ str "Device-B" :: [str "Device-C"]) []
        demoCommit demoStats).outcome = .error "forced commit failure" ∧
    (process_zip_file ([str "Device-A"] ++ str "Device-B" :: [str "Device-C"]) []
        demoCommit demoStats).upload.status = "failed" :=
  have h := C1_per_device_commit_no_rollback_but_abort [str "Device-A"] (str "Device-B")
    [str "Device-C"] [] demoCommit demoStats "forced commit failure"
    (by
      intro n hn
      rw [List.mem_singleton] at hn
      subst hn
      right
      rfl)
    rfl rfl
  ⟨h.1, h.2.1⟩

/-! ## Committed credential field limits

Embeds `sanitize_text` (`zip_ingestion.py` lines 25–30) and the
per-credential field preparation of `_process_device` (lines 343–371):
each of domain/tld/username/browser/stealer_name is sanitized, replaced
by `None` when falsy, and sliced to its column limit; url, password and
file_path are sanitized but not truncated. -/

/-- `sanitize_text`: `None` and `""` pass through, otherwise NUL bytes
    are removed. -/
def sanitize_text : Option Str → Option Str
  | none => none
  | some t => if t.isEmpty then some t else some (t.filter (fun c => c != '\x00'))

/-- `x = sanitize_text(v); x[:n] if x else None`. -/
def truncOrNull (n : Nat) (v : Option Str) : Option Str :=
  match sanitize_text v with
  | none => none
  | some t => if t.isEmpty then none else some (t.take n)

/-- The credential dict assembled by `_process_device` (lines 269–279). -/
structure CredData where
  url : Option Str
  domain : Option Str
  tld : Option Str
  username : Option Str
  password : Option Str
  browser : Option Str
  stealer_name : Option Str
  file_path : Option Str

/-- The `Credential` row handed to the store (lines 361–371). -/
structure CredentialRow where
  url : Option Str
  domain : Option Str
  tld : Option Str
  username : Option Str
  password : Option Str
  browser : Option Str
  stealer_name : Option Str
  file_path : Option Str

/-- Field preparation of the credential-saving loop (lines 343–371). -/
def buildCredentialRow (c : CredData) : CredentialRow :=
  { url := sanitize_text c.url,
    domain := truncOrNull 500 c.domain,
    tld := truncOrNull 50 c.tld,
    username := truncOrNull 500 c.username,
    password := sanitize_text c.password,
    browser := truncOrNull 200 c.browser,
    stealer_name := truncOrNull 200 c.stealer_name,
    file_path := sanitize_text c.file_path }

/-- What the claim asserts of one truncated field: stored values are at
    most `n` long, an empty input is stored as null, and a non-empty
    input is stored as its NUL-stripped prefix of length `n` — truncated,
    never rejected. -/
def truncSpec (n : Nat) (inp out : Option Str) : Prop :=
  (∀ s, out = some s → s.length ≤ n) ∧
  (inp = some [] → out = none) ∧
  (∀ t, inp = some t → (t.filter (fun c => c != '\x00')).isEmpty = false →
    out = some ((t.filter (fun c => c != '\x00')).take n))

theorem truncOrNull_spec (n : Nat) (v : Option Str) : truncSpec n v (truncOrNull n v) := by
  unfold truncSpec truncOrNull sanitize_text
  cases v with
  | none =>
    exact ⟨fun s h => by simp at h, fun h => by simp at h, fun t h => by simp at h⟩
  | some t =>
    by_cases ht : t.isEmpty
    · have ht' : t = [] := by
        cases t
        · rfl
        · simp at ht
      subst ht'
      refine ⟨fun s h => by simp at h, fun _ => by simp, fun u hu hne => ?_⟩
      rw [← Option.some.inj hu] at hne
      simp at hne
    · simp only [ht, Bool.false_eq_true, if_false]
      by_cases hf : (t.filter (fun c => c != '\x00')).isEmpty
      · rw [if_pos hf]
        refine ⟨fun s h => by simp at h, fun _ => rfl, fun u hu hne => ?_⟩
        rw [← Option.some.inj hu] at hne
        rw [hne] at hf
        simp at hf
      · rw [if_neg hf]
        refine ⟨?_, ?_, ?_⟩
        · intro s hs
          rw [← Option.some.inj hs, List.length_take]
          exact min_le_left _ _
        · intro h
          rw [Option.some.inj h] at ht
          simp at ht
        · intro u hu
          rw [Option.some.inj hu]
          intro _
          rfl

/-- C10: every committed credential row has its text fields silently
    truncated to the column limits — domain ≤ 500, tld ≤ 50,
    username ≤ 500, browser ≤ 200, stealer_name ≤ 200 — an empty string
    in any of these fields is stored as null, and over-long values are
    truncated (stored as the NUL-stripped prefix), never rejected. -/
theorem C10_committed_fields_truncated (c : CredData) :
    truncSpec 500 c.domain (buildCredentialRow c).domain ∧
    truncSpec 50 c.tld (buildCredentialRow c).tld ∧
    truncSpec 500 c.username (buildCredentialRow c).username ∧
    truncSpec 200 c.browser (buildCredentialRow c).browser ∧
    truncSpec 200 c.stealer_name (buildCredentialRow c).stealer_name :=
  ⟨truncOrNull_spec 500 c.domain, truncOrNull_spec 50 c.tld,
    truncOrNull_spec 500 c.username, truncOrNull_spec 200 c.browser,
    truncOrNull_spec 200 c.stealer_name⟩

/-- A credential dict with a 501-character domain and an empty tld. -/
def overlongCred : CredData :=
  ⟨none, some (List.replicate 501 'a'), some [], some (str "bob"), some (str "pw"),
    none, none, none⟩

set_option maxRecDepth 100000 in
theorem C10_witness :
    (buildCredentialRow overlongCred).domain = some (List.replicate 500 'a') ∧
    (buildCredentialRow overlongCred).tld = none := by
  constructor
  · have h := (C10_committed_fields_truncated overlongCred).1.2.2
      (List.replicate 501 'a') rfl (by decide)
    rw [h]
    decide
  · exact (C10_committed_fields_truncated overlongCred).2.1.2.1 rfl

/-! ## Password-protected archive manager

Embeds `PasswordArchiveManager` from
`backend/app/services/password_archive_manager.py`: the pending dict is
an association list keyed by the content hash, the shared common-password
list is the manager's list, and the format-specific extraction/test
subprocesses (external collaborators, spec §6) are oracle parameters —
`extract_with_password` takes the outcome the `try` block would produce
(a result dict or a raised exception), `try_common_passwords` takes the
per-password test oracle, and the protection probes take the observed
read/subprocess results. -/

/-- The `PendingArchive` dataclass (lines 29–41). -/
structure PendingArchive where
  file_path : String
  file_name : String
  file_hash : String
  detected_at : String
  source : String
  chat_id : Option Int
  message_id : Option Int
  attempts : Nat
  last_attempt : Option String
  status : String
deriving DecidableEq

/-- The manager's mutable state: the pending dict and the shared
    common-password list. -/
structure ManagerState where
  pending_archives : List (String × PendingArchive)
  common_passwords : List String
deriving DecidableEq

/-- `dict.get(k)`: the first entry with the key (dict keys are unique). -/
def lookupA : List (String × PendingArchive) → String → Option PendingArchive
  | [], _ => none
  | p :: rest, k => if p.1 = k then some p.2 else lookupA rest k

/-- Assignment to an existing key. -/
def updateA (l : List (String × PendingArchive)) (k : String) (v : PendingArchive) :
    List (String × PendingArchive) :=
  l.map (fun p => if p.1 = k then (p.1, v) else p)

/-- `dict.pop(k, None)`. -/
def popA (l : List (String × PendingArchive)) (k : String) :
    List (String × PendingArchive) :=
  l.filter (fun p => p.1 != k)

/-- The curated list seeded by `_load_common_passwords` (lines 101–141). -/
def defaultCommonPasswords : List String :=
  ["infected", "123", "1234", "12345", "123456", "password", "logs", "stealer",
   "cloud", "redline", "raccoon", "vidar", "meta", "lumma", "mars", "azorult",
   "ficker", "aurora", "rhadamanthys", "stealc", "risepro", "mystic",
   "111", "222", "333", "666", "777", "888", "999", "000",
   "qwerty", "admin", "root", "test", "demo"]

/-- A freshly initialised manager. -/
def initialManagerState : ManagerState := ⟨[], defaultCommonPasswords⟩

/-- `try_common_passwords` (lines 216–233): walk the shared list in
    order, testing each password with the format-specific check
    (`_try_zip_password` / `_try_rar_password`, abstracted as `tryPw`);
    stop at the first success; unknown extensions test nothing.  The
    state is returned unchanged — the function never mutates the list. -/
def try_common_passwords (st : ManagerState) (ext : String) (tryPw : String → Bool) :
    Option String × ManagerState :=
  if ext = ".zip" || ext = ".rar" || ext = ".7z" then
    (st.common_passwords.find? tryPw, st)
  else (none, st)

/-- What the `try` block of `extract_with_password` produces: the result
    dict of `_extract_zip` / `_extract_rar` (or the unsupported-format
    dict), or a raised exception. -/
inductive ExtractOutcome where
  | result (success : Bool) (message : String)
  | exc (message : String)
deriving DecidableEq

/-- The dict returned by `extract_with_password` (`extracted_files` and
    `output_dir` payloads omitted). -/
structure ExtractResp where
  success : Bool
  message : String
deriving DecidableEq

/-- Return value plus final manager state plus the final contents of the
    mutated `archive` record (observable through the completion
    callback). -/
structure ExtractStep where
  resp : ExtractResp
  state : ManagerState
  archive : Option PendingArchive

/-- `extract_with_password` (lines 314–381): unknown hash fails fast; a
    missing file drops the record; otherwise the attempt counter and
    timestamp are bumped and the record enters `processing`; a successful
    extraction marks it `extracted`, removes it and learns a new password
    into the shared list; a failed result or a raised exception returns
    it to `pending`. -/
def extract_with_password (st : ManagerState) (file_hash password : String)
    (fileExists : Bool) (now : String) (outcome : ExtractOutcome) : ExtractStep :=
  match lookupA st.pending_archives file_hash with
  | none => ⟨⟨false, "Archive not found"⟩, st, none⟩
  | some archive =>
    if !fileExists then
      ⟨⟨false, "Archive file no longer exists"⟩,
        { st with pending_archives := popA st.pending_archives file_hash }, some archive⟩
    else
      let pendingA : PendingArchive :=
        { archive with
          attempts := archive.attempts + 1,
          last_attempt := some now,
          status := "pending" }
      let extractedA : PendingArchive :=
        { archive with
          attempts := archive.attempts + 1,
          last_attempt := some now,
          status := "extracted" }
      match outcome with
      | .exc m =>
        ⟨⟨false, m⟩,
          { st with pending_archives := updateA st.pending_archives file_hash pendingA },
          some pendingA⟩
      | .result true m =>
        ⟨⟨true, m⟩,
          { st with
            pending_archives := popA st.pending_archives file_hash,
            common_passwords :=
              if st.common_passwords.contains password then st.common_passwords
              else st.common_passwords ++ [password] },
          some extractedA⟩
      | .result false m =>
        ⟨⟨false, m⟩,
          { st with pending_archives := updateA st.pending_archives file_hash pendingA },
          some pendingA⟩

/-! ## Password-protection probes (C9) -/

/-- Result of reading one ZIP entry without a password. -/
inductive ZipReadResult where
  | ok
  | rte (msg : String)
  | otherExc
deriving DecidableEq

/-- One entry of the ZIP's info list. -/
structure ZipEntry where
  isDir : Bool
  read : ZipReadResult
deriving DecidableEq

/-- Opening the ZIP: its entry list, a `BadZipFile`, or another error. -/
inductive ZipOpenResult where
  | entries (l : List ZipEntry)
  | badZip
  | exc
deriving DecidableEq

/-- `'encrypted' in str(e).lower() or 'password' in str(e).lower()`. -/
def zipEncryptedSignal (m : String) : Bool :=
  isSubstr (str "encrypted") (lowerStr m.data) || isSubstr (str "password") (lowerStr m.data)

/-- The entry loop of `_is_zip_password_protected` (lines 167–177): the
    first non-directory entry that reads cleanly proves the ZIP open; a
    `RuntimeError` carrying an encrypted/password signal proves it
    protected; any other failure falls through to the next entry. -/
def zipProtectedLoop : List ZipEntry → Bool
  | [] => false
  | e :: rest =>
    if e.isDir then zipProtectedLoop rest
    else
      match e.read with
      | .ok => false
      | .rte m => if zipEncryptedSignal m then true else zipProtectedLoop rest
      | .otherExc => zipProtectedLoop rest

/-- `_is_zip_password_protected` (lines 162–182). -/
def is_zip_password_protected : ZipOpenResult → Bool
  | .entries l => zipProtectedLoop l
  | .badZip => false
  | .exc => false

/-- Observed behaviour of the RAR/7z no-password test run
    (`subprocess.run`): which tool ran, its exit code and stderr; or no
    tool installed; or a raised exception (timeout etc.). -/
inductive RarProbe where
  | unrarRun (rc : Int) (stderr : String)
  | unrarMissing7z (rc : Int) (stderr : String)
  | noTool
  | exc
deriving DecidableEq

/-- `_is_rar_password_protected` (lines 184–214): with unrar, `encrypted`
    in stderr **or any nonzero exit status** counts as protected; with
    the 7z fallback, `wrong password` in stderr or any nonzero exit
    status; no tool or a raised exception yields `False`. -/
def is_rar_password_protected : RarProbe → Bool
  | .unrarRun rc err =>
    isSubstr (str "encrypted") (lowerStr err.data) || rc != 0
  | .unrarMissing7z rc err =>
    isSubstr (str "wrong password") (lowerStr err.data) || rc != 0
  | .noTool => false
  | .exc => false

/-- `is_password_protected` (lines 150–160): dispatch on the lower-cased
    extension. -/
def is_password_protected (ext : String) (zipProbe : ZipOpenResult)
    (rarProbe : RarProbe) : Bool :=
  if ext = ".zip" then is_zip_password_protected zipProbe
  else if ext = ".rar" || ext = ".7z" then is_rar_password_protected rarProbe
  else false

/-! ### Lemmas about the pending dict -/

theorem lookupA_popA (l : List (String × PendingArchive)) (k : String) :
    lookupA (popA l k) k = none := by
  induction l with
  | nil => rfl
  | cons p rest ih =>
    by_cases hp : p.1 = k
    · simpa [popA, List.filter_cons, hp] using ih
    · simpa [popA, lookupA, List.filter_cons, bne_iff_ne, hp] using ih

theorem lookupA_popA_mem (l : List (String × PendingArchive)) (k k' : String)
    (b : PendingArchive) (h : lookupA (popA l k) k' = some b) :
    lookupA l k' = some b := by
  induction l with
  | nil => simp [popA, lookupA] at h
  | cons p rest ih =>
    by_cases hp : p.1 = k
    · by_cases hk : k' = k
      · rw [hk, lookupA_popA] at h
        simp at h
      · have h' : lookupA (popA rest k) k' = some b := by
          simpa [popA, List.filter_cons, hp] using h
        have hne : ¬(p.1 = k') := by
          rw [hp]
          exact fun he => hk he.symm
        simpa [lookupA, hne] using ih h'
    · by_cases hk : p.1 = k'
      · have : lookupA (p :: popA rest k) k' = some b := by
          simpa [popA, List.filter_cons, bne_iff_ne, hp] using h
        simp only [lookupA, hk, if_pos] at this
        simpa [lookupA, hk] using this
      · have h' : lookupA (popA rest k) k' = some b := by
          simpa [popA, List.filter_cons, bne_iff_ne, hp, lookupA, hk] using h
        simpa [lookupA, hk] using ih h'

theorem lookupA_updateA_found (l : List (String × PendingArchive)) (k : String)
    (v : PendingArchive) (h : lookupA l k ≠ none) :
    lookupA (updateA l k v) k = some v := by
  induction l with
  | nil => simp [lookupA] at h
  | cons p rest ih =>
    by_cases hp : p.1 = k
    · simp [updateA, lookupA, hp]
    · have h' : lookupA rest k ≠ none := by simpa [lookupA, hp] using h
      simpa [updateA, lookupA, hp] using ih h'

theorem lookupA_updateA_mem (l : List (String × PendingArchive)) (k : String)
    (v : PendingArchive) (k' : String) (b : PendingArchive)
    (h : lookupA (updateA l k v) k' = some b) :
    b = v ∨ lookupA l k' = some b := by
  induction l with
  | nil => simp [updateA, lookupA] at h
  | cons p rest ih =>
    by_cases hp : p.1 = k
    · by_cases hk : p.1 = k'
      · have hkk : k = k' := hp.symm.trans hk
        have : some v = some b := by simpa [updateA, lookupA, hp, hkk] using h
        exact Or.inl (Option.some.inj this).symm
      · have hkk : ¬(k = k') := fun he => hk (hp.trans he)
        have h' : lookupA (updateA rest k v) k' = some b := by
          simpa [updateA, lookupA, hp, hkk] using h
        rcases ih h' with hl | hr
        · exact Or.inl hl
        · exact Or.inr (by simpa [lookupA, hk] using hr)
    · by_cases hk : p.1 = k'
      · have hpk : ¬(k' = k) := fun he => hp (hk.trans he)
        have : some p.2 = some b := by simpa [updateA, lookupA, hk, hpk] using h
        exact Or.inr (by simpa [lookupA, hk] using this)
      · have h' : lookupA (updateA rest k v) k' = some b := by
          simpa [updateA, lookupA, hp, hk] using h
        rcases ih h' with hl | hr
        · exact Or.inl hl
        · exact Or.inr (by simpa [lookupA, hk] using hr)

/-- C3: the pending-archive state machine of `extract_with_password` —
    for a registered pending archive whose file exists, a successful
    extraction marks the record `extracted` and removes it from the
    pending set (terminal); a wrong-password failure (any unsuccessful
    result, and any raised exception) returns it to `pending` with the
    attempt counter incremented, still queryable; and no record in the
    pending set ever carries a terminal `failed` status. -/
theorem C3_pending_state_machine (st : ManagerState) (h pw now : String)
    (outcome : ExtractOutcome) (a : PendingArchive)
    (hreg : lookupA st.pending_archives h = some a) :
    (∀ m, outcome = .result true m →
      (extract_with_password st h pw true now outcome).archive =
        some ({ a with
          attempts := a.attempts + 1,
          last_attempt := some now,
          status := "extracted" }) ∧
      lookupA (extract_with_password st h pw true now outcome).state.pending_archives h
        = none) ∧
    (∀ m, outcome = .result false m →
      lookupA (extract_with_password st h pw true now outcome).state.pending_archives h
        = some ({ a with
          attempts := a.attempts + 1,
          last_attempt := some now,
          status := "pending" })) ∧
    (∀ m, outcome = .exc m →
      lookupA (extract_with_password st h pw true now outcome).state.pending_archives h
        = some ({ a with
          attempts := a.attempts + 1,
          last_attempt := some now,
          status := "pending" })) ∧
    ((∀ k b, lookupA st.pending_archives k = some b → b.status ≠ "failed") →
      ∀ k b,
        lookupA (extract_with_password st h pw true now outcome).state.pending_archives k
          = some b → b.status ≠ "failed") := by
  refine ⟨?_, ?_, ?_, ?_⟩
  · rintro m rfl
    unfold extract_with_password
    rw [hreg]
    exact ⟨rfl, lookupA_popA _ _⟩
  · rintro m rfl
    unfold extract_with_password
    rw [hreg]
    exact lookupA_updateA_found _ _ _ (by rw [hreg]; simp)
  · rintro m rfl
    unfold extract_with_password
    rw [hreg]
    exact lookupA_updateA_found _ _ _ (by rw [hreg]; simp)
  · intro hpre k b hb
    unfold extract_with_password at hb
    rw [hreg] at hb
    cases outcome with
    | exc m =>
      simp only [Bool.not_true, Bool.false_eq_true, if_false] at hb
      rcases lookupA_updateA_mem _ _ _ _ _ hb with hl | hr
      · rw [hl]
        simp
      · exact hpre k b hr
    | result success m =>
      cases success with
      | true =>
        simp only [Bool.not_true, Bool.false_eq_true, if_false] at hb
        exact hpre k b (lookupA_popA_mem _ _ _ _ hb)
      | false =>
        simp only [Bool.not_true, Bool.false_eq_true, if_false] at hb
        rcases lookupA_updateA_mem _ _ _ _ _ hb with hl | hr
        · rw [hl]
          simp
        · exact hpre k b hr

/-- A registered pending archive used for concrete instantiations. -/
def samplePending : PendingArchive :=
  ⟨"/data/drop.rar", "drop.rar", "abcd1234", "2025-01-01T00:00:00", "upload",
    none, none, 2, none, "pending"⟩

/-- A manager state holding `samplePending`. -/
def sampleState : ManagerState := ⟨[("abcd1234", samplePending)], defaultCommonPasswords⟩

theorem C3_witness :
    lookupA (extract_with_password sampleState "abcd1234" "pw" true "T"
        (.result true "ok")).state.pending_archives "abcd1234" = none ∧
    lookupA (extract_with_password sampleState "abcd1234" "pw" true "T"
        (.result false "Wrong password")).state.pending_archives "abcd1234"
      = some ({ samplePending with
          attempts := 3,
          last_attempt := some "T",
          status := "pending" }) := by
  constructor
  · exact ((C3_pending_state_machine sampleState "abcd1234" "pw" "T" (.result true "ok")
      samplePending rfl).1 "ok" rfl).2
  · exact (C3_pending_state_machine sampleState "abcd1234" "pw" "T"
      (.result false "Wrong password") samplePending rfl).2.1 "Wrong password" rfl

/-- C8 counterexample: a first-time success inside `try_common_passwords`
    (the password `"infected"` succeeding on a fresh manager) leaves the
    shared list completely unchanged — its length stays 35 instead of
    growing by one, because `try_common_passwords` only ever tests
    passwords already in the list and never appends. -/
theorem C8_counterexample :
    (try_common_passwords initialManagerState ".zip" (fun p => p == "infected")).1
      = some "infected" ∧
    (try_common_passwords initialManagerState ".zip" (fun p => p == "infected")).2
      = initialManagerState ∧
    (try_common_passwords initialManagerState ".zip"
        (fun p => p == "infected")).2.common_passwords.length = 35 ∧
    initialManagerState.common_passwords.length = 35 :=
  ⟨rfl, rfl, rfl, rfl⟩

theorem find?_append_new (l : List String) (pw : String)
    (h : l.contains pw = false) :
    (l ++ [pw]).find? (fun p => p == pw) = some pw := by
  induction l with
  | nil => simp
  | cons a rest ih =>
    have ha : (a == pw) = false := by
      by_contra hne
      rw [Bool.not_eq_false, beq_iff_eq] at hne
      rw [hne] at h
      simp at h
    have hrest : rest.contains pw = false := by
      by_contra hne
      rw [Bool.not_eq_false] at hne
      have : (a :: rest).contains pw = true := by
        simp only [List.contains_cons]
        rw [hne]
        simp
      rw [this] at h
      exact Bool.true_eq_false.mp h
    simpa [List.find?, ha] using ih hrest

/-- C8 (amended): `try_common_passwords` walks the shared list in order,
    stops at the first success and never modifies the list — every
    password it can succeed with is already in the list.  The learning
    the spec describes happens in `extract_with_password`: a successful
    extraction with a password not previously in the shared list appends
    it, growing the list by exactly one, and a subsequent lookup finds
    it. -/
theorem C8_learning_in_extract_with :
    (∀ st ext tryPw, (try_common_passwords st ext tryPw).2 = st ∧
      (ext = ".zip" →
        (try_common_passwords st ext tryPw).1 = st.common_passwords.find? tryPw)) ∧
    (∀ st h pw now m a, lookupA st.pending_archives h = some a →
      st.common_passwords.contains pw = false →
      (extract_with_password st h pw true now (.result true m)).state.common_passwords
        = st.common_passwords ++ [pw] ∧
      (extract_with_password st h pw true now
          (.result true m)).state.common_passwords.length
        = st.common_passwords.length + 1 ∧
      (extract_with_password st h pw true now
          (.result true m)).state.common_passwords.find? (fun p => p == pw)
        = some pw) := by
  constructor
  · intro st ext tryPw
    constructor
    · unfold try_common_passwords
      split <;> rfl
    · intro he
      subst he
      rfl
  · intro st h pw now m a hreg hnew
    have hcp : (extract_with_password st h pw true now
        (.result true m)).state.common_passwords = st.common_passwords ++ [pw] := by
      unfold extract_with_password
      rw [hreg]
      simp only [Bool.not_true, Bool.false_eq_true, if_false]
      rw [hnew]
      rfl
    refine ⟨hcp, ?_, ?_⟩
    · rw [hcp]
      simp
    · rw [hcp]
      exact find?_append_new _ _ hnew

theorem C8_witness :
    (try_common_passwords initialManagerState ".zip" (fun p => p == "123")).1
      = initialManagerState.common_passwords.find? (fun p => p == "123") ∧
    (extract_with_password sampleState "abcd1234" "S3cret" true "T"
        (.result true "ok")).state.common_passwords.length
      = sampleState.common_passwords.length + 1 := by
  constructor
  · exact (C8_learning_in_extract_with.1 initialManagerState ".zip"
      (fun p => p == "123")).2 rfl
  · exact (C8_learning_in_extract_with.2 sampleState "abcd1234" "S3cret" "T" "ok"
      samplePending rfl (by decide)).2.1

/-- C9 counterexample: a merely corrupt RAR (nonzero unrar exit status,
    stderr carrying neither an `encrypted` nor a `wrong password`
    signal) is classified as password-protected. -/
theorem C9_counterexample :
    is_password_protected ".rar" ZipOpenResult.exc
      (RarProbe.unrarRun 2 "Corrupt archive - CRC error") = true ∧
    isSubstr (str "encrypted") (lowerStr (str "Corrupt archive - CRC error")) = false ∧
    isSubstr (str "wrong password") (lowerStr (str "Corrupt archive - CRC error"))
      = false := by
  refine ⟨by decide, by decide, by decide⟩

/-- C9 (amended): the ZIP probe reports protected only on
    encrypted/password `RuntimeError` signals — a ZIP whose entry reads
    fail with any other error, a bad ZIP, or an open failure yields
    not-protected; but the RAR/7z probe treats **any nonzero exit
    status** of the no-password test as protected, so corrupt RAR/7z
    files are classified as password-protected. -/
theorem C9_probe_error_semantics :
    (∀ l, (∀ e ∈ l, ∀ m, e.read = .rte m → zipEncryptedSignal m = false) →
      is_zip_password_protected (.entries l) = false) ∧
    is_zip_password_protected .badZip = false ∧
    is_zip_password_protected .exc = false ∧
    (∀ rc err, rc ≠ 0 → is_rar_password_protected (.unrarRun rc err) = true) ∧
    (∀ rc err, rc ≠ 0 → is_rar_password_protected (.unrarMissing7z rc err) = true) ∧
    (∀ err, isSubstr (str "encrypted") (lowerStr err.data) = false →
      is_rar_password_protected (.unrarRun 0 err) = false) := by
  refine ⟨?_, rfl, rfl, ?_, ?_, ?_⟩
  · intro l hl
    simp only [is_zip_password_protected]
    induction l with
    | nil => rfl
    | cons e rest ih =>
      simp only [zipProtectedLoop]
      by_cases hd : e.isDir
      · rw [if_pos hd]
        exact ih (fun e' he' m hm => hl e' (by simp [he']) m hm)
      · rw [if_neg hd]
        cases hr : e.read with
        | ok => rfl
        | rte m =>
          simp only [hl e (by simp) m hr, Bool.false_eq_true, if_false]
          exact ih (fun e' he' m' hm' => hl e' (by simp [he']) m' hm')
        | otherExc => exact ih (fun e' he' m' hm' => hl e' (by simp [he']) m' hm')
  · intro rc err hrc
    simp [is_rar_password_protected, bne_iff_ne, hrc]
  · intro rc err hrc
    simp [is_rar_password_protected, bne_iff_ne, hrc]
  · intro err herr
    simp [is_rar_password_protected, herr]

theorem C9_witness :
    is_zip_password_protected
      (.entries [⟨true, .ok⟩, ⟨false, .otherExc⟩, ⟨false, .rte "bad CRC"⟩]) = false ∧
    is_rar_password_protected (.unrarRun 2 "boom") = true ∧
    is_rar_password_protected (.unrarRun 0 "all ok") = false := by
  refine ⟨?_, ?_, ?_⟩
  · refine C9_probe_error_semantics.1 _ ?_
    intro e he m hm
    simp only [List.mem_cons, List.mem_singleton, List.not_mem_nil, or_false] at he
    rcases he with rfl | rfl | rfl
    · simp at hm
    · simp at hm
    · have hm' : ZipReadResult.rte "bad CRC" = ZipReadResult.rte m := hm
      rw [← ZipReadResult.rte.inj hm']
      decide
  · exact C9_probe_error_semantics.2.2.2.1 2 "boom" (by decide)
  · exact C9_probe_error_semantics.2.2.2.2.2 "all ok" (by decide)

end Snatchbase
